import Mathlib

/-!
# Verification of the pdf-notes-app core pipeline

Shallow embedding of the two core source files of the repository
(`convert_pdf_to_docx.py` and `word_reindent.py`).  Python strings are
modelled as `String` (operating on their `List Char` data, restricted to
ASCII whitespace/letter semantics, which is what the pipeline produces),
Python floats (point measurements and x coordinates) as `ℚ`, Python ints
as `ℤ`/`ℕ`, and `None`-able values as `Option`.
-/

namespace PdfNotes

/-- ASCII whitespace, the model of Python's `\s` / `str.strip` class. -/
def pySpace (c : Char) : Bool :=
  c == ' ' || c == '\t' || c == '\n' || c == '\r' ||
    c == Char.ofNat 11 || c == Char.ofNat 12

/-- Characters stripped from both ends, as `str.strip()`. -/
def pyStripChars (cs : List Char) : List Char :=
  ((cs.dropWhile pySpace).reverse.dropWhile pySpace).reverse

/-- Python `str.strip()`. -/
def pyStrip (s : String) : String :=
  String.mk (pyStripChars s.data)

/-- Python `str.lower()` (ASCII model). -/
def pyLower (s : String) : String :=
  String.mk (s.data.map Char.toLower)

/-- Python `str.startswith(pre)`. -/
def pyStartsWith (pre s : String) : Bool :=
  pre.data.isPrefixOf s.data

/-- Python 3 `round` on an exact rational: round half to even (banker's
rounding).  The source computes with floats; all quantities the pipeline
feeds into `round` are exactly representable, so the rational model is
faithful. -/
def pythonRound (q : ℚ) : ℤ :=
  let f : ℤ := Int.floor q
  let r : ℚ := q - (f : ℚ)
  if r < 1/2 then f
  else if 1/2 < r then f + 1
  else if f % 2 = 0 then f else f + 1

/-- A docx run: text plus the direct formatting the pipeline reads or
writes (`None` = inherited). -/
structure Run where
  text : String
  bold : Option Bool
  italic : Option Bool
  underline : Option Bool
  fontName : Option String
  fontSize : Option ℚ
  deriving DecidableEq

/-- A docx paragraph as the postprocessor / remapper sees it: its runs,
its style name, and the direct indents (in points). -/
structure Paragraph where
  runs : List Run
  styleName : String
  leftIndent : Option ℚ
  firstLineIndent : Option ℚ
  deriving DecidableEq

/-- `paragraph.text` in python-docx: concatenation of the run texts. -/
def Paragraph.text (p : Paragraph) : String :=
  String.join (p.runs.map (fun r => r.text))

/-- The canonical font name forced throughout both scripts. -/
def APTOS : String := "Aptos (Body)"

/-!
## `convert_pdf_to_docx.postprocess_formatting`: indent encoding

`apply_level_indent` (closure inside `postprocess_formatting`): clamp the
level to [0, 2], set `left_indent = 18 + 18 * level` points and
`first_line_indent = -18` points.
-/

def apply_level_indent (p : Paragraph) (level : ℤ) : Paragraph :=
  let lvl : ℤ := max 0 (min level 2)
  { p with leftIndent := some (18 + 18 * (lvl : ℚ)),
           firstLineIndent := some (-18) }

/-!
## `word_reindent.infer_level_from_indent`

`level = round((left_indent.pt - 18.0) / 18.0)` clamped to [0, 2];
missing left indent means level 0.
-/

def infer_level_from_indent (p : Paragraph) : ℤ :=
  match p.leftIndent with
  | none => 0
  | some left => max 0 (min (pythonRound ((left - 18) / 18)) 2)

lemma pythonRound_intCast (n : ℤ) : pythonRound (n : ℚ) = n := by
  unfold pythonRound
  have hf : Int.floor ((n : ℚ)) = n := Int.floor_intCast n
  simp only [hf, sub_self]
  norm_num

/-- **C1.** Round-trip of the indentation-level encoding: for every level
`L ∈ {0,1,2}`, encoding `L` with the postprocessor's
`apply_level_indent` (left indent `18 + 18·L`, hanging first-line indent)
and then running the remapper's `infer_level_from_indent` recovers
exactly `L`. -/
theorem indent_roundtrip (p : Paragraph) (L : ℤ) (h0 : 0 ≤ L) (h2 : L ≤ 2) :
    infer_level_from_indent (apply_level_indent p L) = L := by
  have hclamp : max 0 (min L 2) = L := by omega
  unfold apply_level_indent infer_level_from_indent
  simp only [hclamp]
  have harg : ((18 : ℚ) + 18 * (L : ℚ) - 18) / 18 = (L : ℚ) := by
    field_simp
  rw [harg, pythonRound_intCast]
  omega

/-- Witness for C1 at level 1. -/
theorem indent_roundtrip_witness :
    infer_level_from_indent (apply_level_indent
      { runs := [], styleName := "Normal", leftIndent := none, firstLineIndent := none } 1) = 1 :=
  indent_roundtrip _ 1 (by decide) (by decide)

/-!
## Coordinate-based bullet levels
(`_cluster_x_positions`, `_levels_for_bullets_on_page`)
-/

/-- Ascending sort, the model of Python's `sorted` / `list.sort` on
numbers. -/
def sortQ (xs : List ℚ) : List ℚ :=
  List.insertionSort (· ≤ ·) xs

/-- The greedy chaining loop of `_cluster_x_positions`: `cur` is the
cluster being grown, `last` its most recently appended member
(`clusters[-1][-1]`). -/
def greedyGo (tol : ℚ) (cur : List ℚ) (last : ℚ) : List ℚ → List (List ℚ)
  | [] => [cur]
  | x :: rest =>
      if |x - last| ≤ tol then greedyGo tol (cur ++ [x]) x rest
      else cur :: greedyGo tol [x] x rest

/-- The cluster partition built by `_cluster_x_positions` before taking
centroids: sort, then chain elements whose gap to the previous element is
at most `tol`. -/
def clusterPartition (xs : List ℚ) (tol : ℚ) : List (List ℚ) :=
  match sortQ xs with
  | [] => []
  | y :: ys => greedyGo tol [y] y ys

/-- `_cluster_x_positions`: cluster centers (centroids), sorted
ascending. -/
def cluster_x_positions (xs : List ℚ) (tol : ℚ) : List ℚ :=
  if xs = [] then []
  else
    sortQ ((clusterPartition xs tol).map (fun c => c.sum / (c.length : ℚ)))

/-- The `min(..., key=...)` fold: keep the first index whose key is
strictly smaller than the best so far. -/
def argminGo (key : ℕ → ℚ) (best : ℕ) : List ℕ → ℕ
  | [] => best
  | j :: rest => argminGo key (if key j < key best then j else best) rest

/-- Python's `min(range(n), key=key)`: the first index in `range n` with
minimal key. -/
def argminRange (key : ℕ → ℚ) (n : ℕ) : ℕ :=
  match List.range n with
  | [] => 0
  | i :: rest => argminGo key i rest

/-- Index of the cluster center nearest to `x` (first one on ties), as
computed by `_levels_for_bullets_on_page`. -/
def argminIdx (centers : List ℚ) (x : ℚ) : ℕ :=
  argminRange (fun j => |x - centers.getD j 0|) centers.length

/-- `_levels_for_bullets_on_page`: map every bullet x position to the
nearest cluster-center index, capped at 2. -/
def levels_for_bullets_on_page (bullet_xs : List ℚ) : List ℕ :=
  if bullet_xs = [] then []
  else
    let centers := cluster_x_positions bullet_xs 4
    bullet_xs.map (fun x => min (argminIdx centers x) 2)

/-- **C3 counterexample.** On offsets `[0, 4, 8, 12, 17]` the greedy
tolerance-4 clustering groups `12` into the first cluster
(`[0, 4, 8, 12]`, index 0, centroid 6), yet the level assigned to `12`
(the offset at position 3) is `1`, because `12` is nearer to the second
centroid `17` than to `6`.  So a bullet's level is not always the index
of the cluster it was grouped into. -/
theorem cluster_membership_counterexample :
    clusterPartition [0, 4, 8, 12, 17] 4 = [[0, 4, 8, 12], [17]] ∧
    levels_for_bullets_on_page [0, 4, 8, 12, 17] = [0, 0, 0, 1, 1] ∧
    (levels_for_bullets_on_page [0, 4, 8, 12, 17]).getD 3 0 ≠ 0 := by
  have hpart : clusterPartition [0, 4, 8, 12, 17] 4 = [[0, 4, 8, 12], [17]] := by
    norm_num [clusterPartition, sortQ, List.insertionSort, List.orderedInsert, greedyGo]
  have hcent : cluster_x_positions [0, 4, 8, 12, 17] 4 = [6, 17] := by
    unfold cluster_x_positions
    rw [if_neg (by decide), hpart]
    norm_num [sortQ, List.insertionSort, List.orderedInsert]
  have hrange : List.range 2 = [0, 1] := by decide
  have hlev : levels_for_bullets_on_page [0, 4, 8, 12, 17] = [0, 0, 0, 1, 1] := by
    unfold levels_for_bullets_on_page
    rw [if_neg (by decide)]
    norm_num [hcent, argminIdx, argminRange, hrange, argminGo, List.getD]
  refine ⟨hpart, hlev, ?_⟩
  rw [hlev]
  decide

lemma argminGo_append (key : ℕ → ℚ) (b : ℕ) (l1 l2 : List ℕ) :
    argminGo key b (l1 ++ l2) = argminGo key (argminGo key b l1) l2 := by
  induction l1 generalizing b with
  | nil => rfl
  | cons j rest ih => simp [argminGo, ih]

lemma argminRange_one (key : ℕ → ℚ) : argminRange key 1 = 0 := rfl

lemma argminRange_eq (key : ℕ → ℚ) (n i : ℕ) (rest : List ℕ)
    (h : List.range n = i :: rest) : argminRange key n = argminGo key i rest := by
  unfold argminRange
  rw [h]

lemma argminRange_succ (key : ℕ → ℚ) (m : ℕ) (hm : 0 < m) :
    argminRange key (m + 1) =
      if key m < key (argminRange key m) then m else argminRange key m := by
  obtain ⟨k, rfl⟩ : ∃ k, m = k + 1 := ⟨m - 1, by omega⟩
  have hr1 : List.range (k + 1) = 0 :: (List.range k).map Nat.succ :=
    List.range_succ_eq_map k
  have hr2 : List.range (k + 1 + 1) = 0 :: ((List.range k).map Nat.succ ++ [k + 1]) := by
    rw [List.range_succ, hr1]
    rfl
  rw [argminRange_eq key _ _ _ hr2, argminGo_append, argminRange_eq key _ _ _ hr1]
  rfl

/-- Key property of the `min(..., key=...)` fold over `range n`: the
result is in range, minimizes the key, and is strictly better than every
earlier index (Python's `min` keeps the first minimum). -/
lemma argminRange_spec (key : ℕ → ℚ) (n : ℕ) (hn : 0 < n) :
    argminRange key n < n ∧ (∀ k < n, key (argminRange key n) ≤ key k) ∧
      (∀ k < argminRange key n, key (argminRange key n) < key k) := by
  induction n with
  | zero => omega
  | succ m ih =>
      by_cases hm : 0 < m
      · obtain ⟨h1, h2, h3⟩ := ih hm
        rw [argminRange_succ key m hm]
        by_cases hlt : key m < key (argminRange key m)
        · simp only [if_pos hlt]
          refine ⟨by omega, ?_, ?_⟩
          · intro k hk
            rcases Nat.lt_succ_iff_lt_or_eq.mp hk with hk' | hk'
            · exact le_of_lt (lt_of_lt_of_le hlt (h2 k hk'))
            · rw [hk']
          · intro k hk
            exact lt_of_lt_of_le hlt (h2 k hk)
        · simp only [if_neg hlt]
          push_neg at hlt
          refine ⟨by omega, ?_, h3⟩
          intro k hk
          rcases Nat.lt_succ_iff_lt_or_eq.mp hk with hk' | hk'
          · exact h2 k hk'
          · rw [hk']; exact hlt
      · have hm0 : m = 0 := by omega
        subst hm0
        rw [argminRange_one]
        refine ⟨by omega, ?_, by omega⟩
        intro k hk
        have hk0 : k = 0 := by omega
        rw [hk0]

lemma sortQ_perm (xs : List ℚ) : (sortQ xs).Perm xs :=
  List.perm_insertionSort _ xs

lemma sortQ_eq_nil_iff (xs : List ℚ) : sortQ xs = [] ↔ xs = [] := by
  constructor
  · intro h
    have hp := sortQ_perm xs
    rw [h] at hp
    exact (hp.symm).eq_nil
  · intro h
    rw [h]
    rfl

lemma greedyGo_ne_nil (tol : ℚ) (cur : List ℚ) (last : ℚ) (l : List ℚ) :
    greedyGo tol cur last l ≠ [] := by
  induction l generalizing cur last with
  | nil => simp [greedyGo]
  | cons x rest ih =>
      unfold greedyGo
      by_cases hx : |x - last| ≤ tol
      · simpa [hx] using ih (cur ++ [x]) x
      · simp [hx]

lemma cluster_x_positions_ne_nil (xs : List ℚ) (hx : xs ≠ []) :
    cluster_x_positions xs 4 ≠ [] := by
  unfold cluster_x_positions
  rw [if_neg hx]
  rw [Ne, sortQ_eq_nil_iff, List.map_eq_nil_iff]
  unfold clusterPartition
  have hs : sortQ xs ≠ [] := fun h => hx ((sortQ_eq_nil_iff xs).mp h)
  match heq : sortQ xs with
  | [] => exact absurd heq hs
  | y :: ys => exact greedyGo_ne_nil 4 [y] y ys

/-- **C3 (amended).** For every nonempty offset list, each bullet's level
is `min(i, 2)` where `i` is the index of the *nearest* cluster centroid
(the first such index on ties, centroids in ascending order) — not
necessarily the index of the greedy cluster the offset was chained
into. -/
theorem levels_nearest_center (xs : List ℚ) (x : ℚ) (hx : xs ≠ []) :
    levels_for_bullets_on_page xs =
      xs.map (fun y => min (argminIdx (cluster_x_positions xs 4) y) 2) ∧
    (argminIdx (cluster_x_positions xs 4) x < (cluster_x_positions xs 4).length ∧
     (∀ k < (cluster_x_positions xs 4).length,
        |x - (cluster_x_positions xs 4).getD (argminIdx (cluster_x_positions xs 4) x) 0| ≤
          |x - (cluster_x_positions xs 4).getD k 0|) ∧
     (∀ k < argminIdx (cluster_x_positions xs 4) x,
        |x - (cluster_x_positions xs 4).getD (argminIdx (cluster_x_positions xs 4) x) 0| <
          |x - (cluster_x_positions xs 4).getD k 0|)) := by
  constructor
  · unfold levels_for_bullets_on_page
    rw [if_neg hx]
  · have hc := cluster_x_positions_ne_nil xs hx
    have hn : 0 < (cluster_x_positions xs 4).length := List.length_pos.mpr hc
    exact argminRange_spec (fun j => |x - (cluster_x_positions xs 4).getD j 0|) _ hn

/-- Witness for the amended C3 at `xs = [0, 10]`, `x = 9`. -/
theorem levels_nearest_center_witness :
    levels_for_bullets_on_page [0, 10] =
      ([0, 10] : List ℚ).map (fun y => min (argminIdx (cluster_x_positions [0, 10] 4) y) 2) ∧
    (argminIdx (cluster_x_positions [0, 10] 4) 9 < (cluster_x_positions [0, 10] 4).length ∧
     (∀ k < (cluster_x_positions [0, 10] 4).length,
        |9 - (cluster_x_positions [0, 10] 4).getD (argminIdx (cluster_x_positions [0, 10] 4) 9) 0| ≤
          |9 - (cluster_x_positions [0, 10] 4).getD k 0|) ∧
     (∀ k < argminIdx (cluster_x_positions [0, 10] 4) 9,
        |9 - (cluster_x_positions [0, 10] 4).getD (argminIdx (cluster_x_positions [0, 10] 4) 9) 0| <
          |9 - (cluster_x_positions [0, 10] 4).getD k 0|)) :=
  levels_nearest_center [0, 10] 9 (by decide)

/-- **C4.** Clustering is deterministic and order-independent: permuting
the offsets leaves the centroid list unchanged, and the level computed
for any offset value is unchanged as well. -/
theorem clustering_order_independent (xs ys : List ℚ) (h : xs.Perm ys) :
    cluster_x_positions xs 4 = cluster_x_positions ys 4 ∧
    ∀ x : ℚ, min (argminIdx (cluster_x_positions xs 4) x) 2 =
      min (argminIdx (cluster_x_positions ys 4) x) 2 := by
  have hsort : sortQ xs = sortQ ys := by
    apply List.eq_of_perm_of_sorted (r := (· ≤ ·))
    · exact (sortQ_perm xs).trans (h.trans (sortQ_perm ys).symm)
    · exact List.sorted_insertionSort _ xs
    · exact List.sorted_insertionSort _ ys
  have hnil : (xs = []) ↔ (ys = []) := by
    constructor
    · intro hh; subst hh; exact h.symm.eq_nil
    · intro hh; subst hh; exact h.eq_nil
  have hcenters : cluster_x_positions xs 4 = cluster_x_positions ys 4 := by
    unfold cluster_x_positions clusterPartition
    by_cases hx : xs = []
    · have hy : ys = [] := hnil.mp hx
      rw [if_pos hx, if_pos hy]
    · have hy : ys ≠ [] := fun hh => hx (hnil.mpr hh)
      rw [if_neg hx, if_neg hy, hsort]
  exact ⟨hcenters, fun x => by rw [hcenters]⟩

/-- Witness for C4 on the swap `[9, 1] ~ [1, 9]`. -/
theorem clustering_order_independent_witness :
    cluster_x_positions [9, 1] 4 = cluster_x_positions [1, 9] 4 ∧
    ∀ x : ℚ, min (argminIdx (cluster_x_positions [9, 1] 4) x) 2 =
      min (argminIdx (cluster_x_positions [1, 9] 4) x) 2 :=
  clustering_order_independent [9, 1] [1, 9] (List.Perm.swap 1 9 [])

/-!
## Line classifier (`BULLET_RE`, `bullet_text`, `looks_like_heading`,
`is_footer_noise`, `normalize_lines`)
-/

/-- The `BULLET_CHARS` list of recognised bullet marker glyphs. -/
def BULLET_CHARS : List Char :=
  ['➣', '➤', '➢', '➔',
   '•', '◦', '·', '∙', '‣', '⁃',
   '▪', '■', '◼', '◾', '◻', '□',
   '-', '–', '—']

/-- `bullet_text` / a `BULLET_RE` match: optional leading whitespace, one
bullet glyph, at least one whitespace, then content containing a
non-space; the returned payload is the content trimmed (the regex group
already excludes surrounding whitespace, and the code strips it again). -/
def bullet_text (line : String) : Option String :=
  match line.data.dropWhile pySpace with
  | [] => none
  | c :: rest =>
      if BULLET_CHARS.contains c then
        match rest with
        | [] => none
        | d :: _ =>
            if pySpace d && rest.any (fun e => !pySpace e) then
              some (String.mk (pyStripChars rest))
            else none
      else none

/-- A character of the `[A-Za-z']` word class of `looks_like_heading`'s
`re.findall`. -/
def isWordChar (c : Char) : Bool :=
  c.isAlpha || c == Char.ofNat 39

/-- First characters of the maximal `[A-Za-z']+` runs after the first
character; `prev` is the preceding character. -/
def wordHeadsAfter (prev : Char) : List Char → List Char
  | [] => []
  | c :: rest =>
      (if isWordChar c && !isWordChar prev then [c] else []) ++ wordHeadsAfter c rest

/-- First characters of the maximal `[A-Za-z']+` runs of a line:
`w[0]` for each `w` in `re.findall(r"[A-Za-z']+", l)`. -/
def wordHeads : List Char → List Char
  | [] => []
  | c :: rest => (if isWordChar c then [c] else []) ++ wordHeadsAfter c rest

/-- Python `str.isupper()` (ASCII model): at least one cased character
and no lower-case cased character. -/
def pyIsUpper (cs : List Char) : Bool :=
  cs.any Char.isAlpha && cs.all (fun c => !c.isAlpha || c.isUpper)

/-- `looks_like_heading` on the already-stripped character list. -/
def looksLikeHeadingChars (l : List Char) : Bool :=
  if l.isEmpty then false
  else if (bullet_text (String.mk l)).isSome then false
  else if 80 < l.length then false
  else if l.getLast? == some (':') then true
  else if (wordHeads l).isEmpty then false
  else if pyIsUpper l && decide (l.length ≤ 60) then true
  else if decide (7 * (wordHeads l).length ≤ 10 * ((wordHeads l).filter Char.isUpper).length)
            && decide (l.length ≤ 70) then true
  else false

/-- `looks_like_heading`: strip, reject bullet lines and lines over 80
characters, then accept on colon ending, full upper case (≤ 60), or a
70% capitalised-word ratio (≤ 70). -/
def looks_like_heading (line : String) : Bool :=
  looksLikeHeadingChars (pyStripChars line.data)

/-- The spec sentence for C5, written as a predicate: not a bullet
match, length at most 80, and (ends with a colon, or fully upper-case
with length at most 60, or at least 70% of the alphabetic words are
capitalised and length at most 70). -/
def headingClaimChars (l : List Char) : Bool :=
  !(bullet_text (String.mk l)).isSome && decide (l.length ≤ 80) &&
    (l.getLast? == some (':') ||
     (pyIsUpper l && decide (l.length ≤ 60)) ||
     (!(wordHeads l).isEmpty &&
      decide (7 * (wordHeads l).length ≤ 10 * ((wordHeads l).filter Char.isUpper).length) &&
      decide (l.length ≤ 70)))

/-- The C5 predicate applied to the stripped line. -/
def headingClaimBool (line : String) : Bool :=
  headingClaimChars (pyStripChars line.data)

lemma wordHeadsAfter_eq_nil (cs : List Char) :
    ∀ prev, isWordChar prev = false → wordHeadsAfter prev cs = [] →
      ∀ c ∈ cs, isWordChar c = false := by
  induction cs with
  | nil => intro prev _ _ c hc; cases hc
  | cons c rest ih =>
      intro prev hprev h d hd
      unfold wordHeadsAfter at h
      by_cases hc : isWordChar c
      · rw [hprev, hc] at h
        simp at h
      · rcases List.mem_cons.mp hd with hd' | hd'
        · rw [hd']
          exact Bool.not_eq_true _ ▸ (by simpa using hc)
        · have hc' : isWordChar c = false := by simpa using hc
          rw [hc'] at h
          simp only [Bool.false_and, if_neg] at h
          exact ih c hc' (by simpa using h) d hd'

lemma wordHeads_eq_nil (cs : List Char) (h : wordHeads cs = []) :
    ∀ c ∈ cs, isWordChar c = false := by
  cases cs with
  | nil => intro c hc; cases hc
  | cons c rest =>
      simp only [wordHeads] at h
      by_cases hc : isWordChar c
      · rw [if_pos hc] at h
        simp at h
      · intro d hd
        have hc' : isWordChar c = false := by simpa using hc
        rw [if_neg hc] at h
        simp only [List.nil_append] at h
        rcases List.mem_cons.mp hd with hd' | hd'
        · rw [hd']; exact hc'
        · exact wordHeadsAfter_eq_nil rest c hc' h d hd'

lemma pyIsUpper_false_of_no_words (l : List Char) (h : wordHeads l = []) :
    pyIsUpper l = false := by
  unfold pyIsUpper
  have : l.any Char.isAlpha = false := by
    rw [List.any_eq_false]
    intro c hc
    have hw := wordHeads_eq_nil l h c hc
    unfold isWordChar at hw
    intro halpha
    rw [halpha] at hw
    simp at hw
  rw [this]
  rfl

/-- **C5.** The heading classifier accepts a line exactly when the
stripped line is not a bullet-marker match, has length at most 80, and
ends with a colon, or is fully upper-case with length at most 60, or has
at least 70% of its alphabetic words capitalised with length at most 70;
in particular every line whose stripped length exceeds 80 is rejected. -/
theorem looks_like_heading_spec :
    (∀ line : String, looks_like_heading line = headingClaimBool line) ∧
    (∀ line : String, 80 < (pyStrip line).length → looks_like_heading line = false) := by
  have main : ∀ l : List Char, looksLikeHeadingChars l = headingClaimChars l := by
    intro l
    by_cases he : l = []
    · subst he
      rfl
    · have hne : l.isEmpty = false := by
        simpa [List.isEmpty_iff] using he
      by_cases hb : (bullet_text (String.mk l)).isSome
      · simp [looksLikeHeadingChars, headingClaimChars, hne, hb]
      · by_cases hlen : 80 < l.length
        · have h80 : decide (l.length ≤ 80) = false := by
            simpa using hlen
          simp [looksLikeHeadingChars, headingClaimChars, hne, hb, hlen, h80]
        · have h80 : decide (l.length ≤ 80) = true := by
            simpa using hlen
          by_cases hcolon : l.getLast? == some (':')
          · simp [looksLikeHeadingChars, headingClaimChars, hne, hb, hlen, h80, hcolon]
          · by_cases hws : (wordHeads l).isEmpty
            · have hwnil : wordHeads l = [] := by
                simpa [List.isEmpty_iff] using hws
              have hup : pyIsUpper l = false := pyIsUpper_false_of_no_words l hwnil
              simp [looksLikeHeadingChars, headingClaimChars, hne, hb, hlen, h80,
                hcolon, hws, hup]
            · by_cases hu : pyIsUpper l && decide (l.length ≤ 60)
              · simp [looksLikeHeadingChars, headingClaimChars, hne, hb, hlen, h80,
                  hcolon, hws, hu]
              · by_cases hr : decide (7 * (wordHeads l).length ≤
                    10 * ((wordHeads l).filter Char.isUpper).length) && decide (l.length ≤ 70)
                · simp [looksLikeHeadingChars, headingClaimChars, hne, hb, hlen, h80,
                    hcolon, hws, hu, hr]
                · simp [looksLikeHeadingChars, headingClaimChars, hne, hb, hlen, h80,
                    hcolon, hws, hu, hr]
  refine ⟨fun line => main (pyStripChars line.data), fun line hlen => ?_⟩
  have hlen' : 80 < (pyStripChars line.data).length := hlen
  have hne : (pyStripChars line.data).isEmpty = false := by
    cases hcs : pyStripChars line.data with
    | nil => rw [hcs] at hlen'; simp at hlen'
    | cons a t => rfl
  unfold looks_like_heading looksLikeHeadingChars
  rw [hne]
  by_cases hb : (bullet_text (String.mk (pyStripChars line.data))).isSome
  · simp [hb]
  · simp [hb, hlen']

/-- Witness for C5: an 81-character line is rejected. -/
theorem looks_like_heading_spec_witness :
    looks_like_heading (String.mk (List.replicate 81 ('a'))) = false :=
  looks_like_heading_spec.2 (String.mk (List.replicate 81 ('a'))) (by decide)

/-!
## Structural postprocessor (`postprocess_formatting`)

The paragraph stream of the produced document, transformed in two
passes: (1) delete bold-only heading paragraphs with no bullet paragraph
before the next heading; (2) convert headings to level-0 bullets, shift
bullets directly under a heading one level deeper, and force every
bullet to the `List Bullet` style with the level encoded purely in the
indents.
-/

/-- `is_heading` inside `postprocess_formatting`: non-blank text, style
name not starting with `List`, and every non-blank run bold (with at
least one non-blank run). -/
def is_heading (p : Paragraph) : Bool :=
  if pyStrip p.text == "" then false
  else if pyStartsWith ("List") p.styleName then false
  else
    p.runs.any (fun r => !(pyStrip r.text == "")) &&
      p.runs.all (fun r => (pyStrip r.text == "") || r.bold == some true)

/-- `is_bullet`: the style name starts with `List`. -/
def is_bullet (p : Paragraph) : Bool :=
  pyStartsWith ("List") p.styleName

/-- `bullet_level_from_style_name`. -/
def bullet_level_from_style_name (name : String) : ℤ :=
  if name == "List Bullet" then 0
  else if name == "List Bullet 2" then 1
  else if name == "List Bullet 3" then 2
  else 0

/-- `enforce_aptos_12`: force the canonical font name and size on every
run. -/
def enforce_aptos_12 (p : Paragraph) : Paragraph :=
  { p with runs := p.runs.map (fun r =>
      { r with fontName := some APTOS, fontSize := some (12 : ℚ) }) }

/-- The heading branch of pass 2: restyle to `List Bullet`, indent at
level 0, re-force bold on non-blank runs, enforce the font. -/
def headingTransform (p : Paragraph) : Paragraph :=
  enforce_aptos_12
    { apply_level_indent { p with styleName := "List Bullet" } 0 with
        runs := p.runs.map (fun r =>
          if !(pyStrip r.text == "") then { r with bold := some true } else r) }

/-- The bullet-under-heading branch of pass 2: read the old level from
the style name, restyle to `List Bullet`, indent one level deeper
(capped at 2). -/
def shiftTransform (p : Paragraph) : Paragraph :=
  enforce_aptos_12
    (apply_level_indent { p with styleName := "List Bullet" }
      (min (bullet_level_from_style_name p.styleName + 1) 2))

/-- The plain-bullet branch of pass 2: restyle to `List Bullet`, indent
at the level read from the old style name. -/
def resetTransform (p : Paragraph) : Paragraph :=
  enforce_aptos_12
    (apply_level_indent { p with styleName := "List Bullet" }
      (bullet_level_from_style_name p.styleName))

/-- The scan in pass 1 deciding whether a heading survives: walk the
following paragraphs, stop at the next heading, succeed on a bullet. -/
def keptAfter : List Paragraph → Bool
  | [] => false
  | q :: rest =>
      if is_heading q then false
      else if is_bullet q then true
      else keptAfter rest

/-- Pass 1 of `postprocess_formatting`: delete each heading paragraph
that has no bullet paragraph before the next heading (or end of
stream). -/
def removeOrphans : List Paragraph → List Paragraph
  | [] => []
  | p :: rest =>
      if is_heading p && !keptAfter rest then removeOrphans rest
      else p :: removeOrphans rest

/-- Pass 2 of `postprocess_formatting`, threading the
`in_heading_block` flag. -/
def processLoop : Bool → List Paragraph → List Paragraph
  | _, [] => []
  | inBlock, p :: rest =>
      if is_heading p then headingTransform p :: processLoop true rest
      else if inBlock && is_bullet p then shiftTransform p :: processLoop true rest
      else
        (if is_bullet p then resetTransform p else enforce_aptos_12 p) ::
          processLoop
            (if pyStrip p.text == "" then false
             else if !is_bullet p then false else inBlock) rest

/-- `postprocess_formatting` on the paragraph stream: orphan-heading
removal followed by the restyling pass. -/
def postprocess_formatting (ps : List Paragraph) : List Paragraph :=
  processLoop false (removeOrphans ps)

/-- What a second run of the postprocessor does to each surviving
paragraph: bullets are restyled and re-indented at the level read from
their style name, everything gets the font enforced. -/
def secondPassReset (p : Paragraph) : Paragraph :=
  if is_bullet p then resetTransform p else enforce_aptos_12 p

lemma enforce_aptos_12_styleName (p : Paragraph) :
    (enforce_aptos_12 p).styleName = p.styleName := rfl

lemma enforce_aptos_12_text (p : Paragraph) :
    (enforce_aptos_12 p).text = p.text := by
  unfold enforce_aptos_12 Paragraph.text
  rw [List.map_map]
  rfl

lemma is_heading_enforce (p : Paragraph) :
    is_heading (enforce_aptos_12 p) = is_heading p := by
  unfold is_heading
  rw [enforce_aptos_12_text, enforce_aptos_12_styleName]
  unfold enforce_aptos_12
  simp only [List.any_map, List.all_map]
  rfl

lemma is_bullet_enforce (p : Paragraph) :
    is_bullet (enforce_aptos_12 p) = is_bullet p := rfl

lemma enforce_aptos_12_idem (p : Paragraph) :
    enforce_aptos_12 (enforce_aptos_12 p) = enforce_aptos_12 p := by
  unfold enforce_aptos_12
  simp only [List.map_map]
  rfl

lemma is_heading_of_list_style (p : Paragraph)
    (h : pyStartsWith ("List") p.styleName = true) : is_heading p = false := by
  unfold is_heading
  by_cases h1 : pyStrip p.text == ""
  · rw [if_pos h1]
  · rw [if_neg h1, if_pos h]

lemma headingTransform_styleName (p : Paragraph) :
    (headingTransform p).styleName = "List Bullet" := rfl

lemma shiftTransform_styleName (p : Paragraph) :
    (shiftTransform p).styleName = "List Bullet" := rfl

lemma resetTransform_styleName (p : Paragraph) :
    (resetTransform p).styleName = "List Bullet" := rfl

lemma startsWith_list_bullet : pyStartsWith ("List") ("List Bullet") = true := by
  decide

lemma is_heading_headingTransform (p : Paragraph) :
    is_heading (headingTransform p) = false :=
  is_heading_of_list_style _ (by rw [headingTransform_styleName]; exact startsWith_list_bullet)

lemma is_heading_shiftTransform (p : Paragraph) :
    is_heading (shiftTransform p) = false :=
  is_heading_of_list_style _ (by rw [shiftTransform_styleName]; exact startsWith_list_bullet)

lemma is_heading_resetTransform (p : Paragraph) :
    is_heading (resetTransform p) = false :=
  is_heading_of_list_style _ (by rw [resetTransform_styleName]; exact startsWith_list_bullet)

lemma headingTransform_enforce_fixed (p : Paragraph) :
    enforce_aptos_12 (headingTransform p) = headingTransform p := by
  unfold headingTransform
  exact enforce_aptos_12_idem _

lemma shiftTransform_enforce_fixed (p : Paragraph) :
    enforce_aptos_12 (shiftTransform p) = shiftTransform p := by
  unfold shiftTransform
  exact enforce_aptos_12_idem _

lemma resetTransform_enforce_fixed (p : Paragraph) :
    enforce_aptos_12 (resetTransform p) = resetTransform p := by
  unfold resetTransform
  exact enforce_aptos_12_idem _

/-- Invariant of pass 2: in its output no paragraph is a heading, every
bullet paragraph carries exactly the `List Bullet` style, and the font
enforcement is a no-op. -/
lemma processLoop_invariant :
    ∀ (ps : List Paragraph) (b : Bool) (p : Paragraph), p ∈ processLoop b ps →
      is_heading p = false ∧ (is_bullet p = true → p.styleName = "List Bullet") ∧
        enforce_aptos_12 p = p := by
  intro ps
  induction ps with
  | nil => intro b p hp; cases hp
  | cons q rest ih =>
      intro b p hp
      unfold processLoop at hp
      by_cases h1 : is_heading q
      · rw [if_pos h1] at hp
        rcases List.mem_cons.mp hp with hp' | hp'
        · subst hp'
          exact ⟨is_heading_headingTransform q,
            fun _ => headingTransform_styleName q,
            headingTransform_enforce_fixed q⟩
        · exact ih true p hp'
      · rw [if_neg h1] at hp
        by_cases h2 : b && is_bullet q
        · rw [if_pos h2] at hp
          rcases List.mem_cons.mp hp with hp' | hp'
          · subst hp'
            exact ⟨is_heading_shiftTransform q,
              fun _ => shiftTransform_styleName q,
              shiftTransform_enforce_fixed q⟩
          · exact ih true p hp'
        · rw [if_neg h2] at hp
          rcases List.mem_cons.mp hp with hp' | hp'
          · subst hp'
            by_cases h3 : is_bullet q
            · rw [if_pos h3]
              exact ⟨is_heading_resetTransform q,
                fun _ => resetTransform_styleName q,
                resetTransform_enforce_fixed q⟩
            · rw [if_neg h3]
              refine ⟨?_, ?_, enforce_aptos_12_idem q⟩
              · rw [is_heading_enforce]
                simpa using h1
              · intro hb
                rw [is_bullet_enforce] at hb
                exact absurd hb h3
          · exact ih _ p hp'

/-- Pass 1 deletes nothing from a stream without headings. -/
lemma removeOrphans_of_no_heading (qs : List Paragraph)
    (h : ∀ p ∈ qs, is_heading p = false) : removeOrphans qs = qs := by
  induction qs with
  | nil => rfl
  | cons q rest ih =>
      unfold removeOrphans
      have hq : is_heading q = false := h q (List.mem_cons_self q rest)
      rw [hq]
      simp only [Bool.false_and, if_neg Bool.false_ne_true]
      rw [ih (fun p hp => h p (List.mem_cons_of_mem q hp))]

/-- On a heading-free stream pass 2 applies `secondPassReset` to each
paragraph. -/
lemma processLoop_of_no_heading (qs : List Paragraph)
    (h : ∀ p ∈ qs, is_heading p = false) :
    processLoop false qs = qs.map secondPassReset := by
  induction qs with
  | nil => rfl
  | cons q rest ih =>
      unfold processLoop
      have hq : is_heading q = false := h q (List.mem_cons_self q rest)
      rw [hq]
      simp only [Bool.false_eq_true, if_neg, Bool.false_and, ite_self, List.map_cons]
      rw [ih (fun p hp => h p (List.mem_cons_of_mem q hp))]
      rfl

lemma resetTransform_runs (p : Paragraph) :
    (resetTransform p).runs = p.runs.map (fun r =>
      { r with fontName := some APTOS, fontSize := some (12 : ℚ) }) := rfl

lemma enforce_aptos_12_runs (p : Paragraph) :
    (enforce_aptos_12 p).runs = p.runs.map (fun r =>
      { r with fontName := some APTOS, fontSize := some (12 : ℚ) }) := rfl

/-- **C2 (amended).** The postprocessor is not idempotent, but a second
run changes only indents and fonts: it equals a per-paragraph
`secondPassReset` that re-indents every bullet paragraph at level 0 and
re-enforces the font, while every paragraph's run texts, bold flags and
style name are left unchanged. -/
theorem postprocess_second_pass (ps : List Paragraph) :
    postprocess_formatting (postprocess_formatting ps) =
      (postprocess_formatting ps).map secondPassReset ∧
    (postprocess_formatting ps).map
        (fun p => ((secondPassReset p).runs.map (fun r => (r.text, r.bold)),
                   (secondPassReset p).styleName)) =
      (postprocess_formatting ps).map
        (fun p => (p.runs.map (fun r => (r.text, r.bold)), p.styleName)) := by
  have hinv : ∀ p ∈ postprocess_formatting ps,
      is_heading p = false ∧ (is_bullet p = true → p.styleName = "List Bullet") ∧
        enforce_aptos_12 p = p := by
    intro p hp
    exact processLoop_invariant (removeOrphans ps) false p hp
  constructor
  · have h1 : removeOrphans (postprocess_formatting ps) = postprocess_formatting ps :=
      removeOrphans_of_no_heading _ (fun p hp => (hinv p hp).1)
    calc postprocess_formatting (postprocess_formatting ps)
        = processLoop false (removeOrphans (postprocess_formatting ps)) := rfl
      _ = processLoop false (postprocess_formatting ps) := by rw [h1]
      _ = (postprocess_formatting ps).map secondPassReset :=
          processLoop_of_no_heading _ (fun p hp => (hinv p hp).1)
  · apply List.map_congr_left
    intro p hp
    obtain ⟨-, hsty, -⟩ := hinv p hp
    unfold secondPassReset
    by_cases hb : is_bullet p
    · rw [if_pos hb]
      refine congrArg₂ Prod.mk ?_ ?_
      · rw [resetTransform_runs, List.map_map]
        rfl
      · rw [resetTransform_styleName, hsty hb]
    · rw [if_neg hb]
      refine congrArg₂ Prod.mk ?_ ?_
      · rw [enforce_aptos_12_runs, List.map_map]
        rfl
      · rfl

/-- A bold heading paragraph. -/
def hPara : Paragraph :=
  { runs := [{ text := "H", bold := some true, italic := none, underline := none,
               fontName := none, fontSize := none }],
    styleName := "Normal", leftIndent := none, firstLineIndent := none }

/-- A level-1 bullet paragraph (style `List Bullet 2`). -/
def bPara : Paragraph :=
  { runs := [{ text := "b", bold := none, italic := none, underline := none,
               fontName := none, fontSize := none }],
    styleName := "List Bullet 2", leftIndent := none, firstLineIndent := none }

/-- **C2 counterexample.** On the stream `[hPara, bPara]` (a heading
followed by a level-1 bullet) the first run shifts the bullet to level 2
(left indent 54), but the second run re-reads the level from the now
uniform `List Bullet` style name and resets the indent to level 0 (left
indent 18): the postprocessor is not idempotent. -/
theorem postprocess_not_idempotent :
    postprocess_formatting (postprocess_formatting [hPara, bPara]) ≠
      postprocess_formatting [hPara, bPara] := by
  intro hcontra
  have e1 : is_heading hPara = true := by decide
  have e3 : is_bullet bPara = true := by decide
  have e4 : is_heading bPara = false := by decide
  have e5 : keptAfter [bPara] = true := by decide
  have step1 : removeOrphans [hPara, bPara] = [hPara, bPara] := by
    simp [removeOrphans, e1, e4, e5]
  have step2 : postprocess_formatting [hPara, bPara] =
      [headingTransform hPara, shiftTransform bPara] := by
    unfold postprocess_formatting
    rw [step1]
    unfold processLoop
    rw [if_pos e1]
    unfold processLoop
    rw [if_neg (by rw [e4]; exact Bool.false_ne_true), if_pos (by rw [e3]; rfl)]
    rfl
  have f1 : is_heading (headingTransform hPara) = false := is_heading_headingTransform _
  have f3 : is_heading (shiftTransform bPara) = false := is_heading_shiftTransform _
  have step3 : postprocess_formatting [headingTransform hPara, shiftTransform bPara] =
      (([headingTransform hPara, shiftTransform bPara] : List Paragraph)).map
        secondPassReset := by
    have hno : ∀ p ∈ ([headingTransform hPara, shiftTransform bPara] : List Paragraph),
        is_heading p = false := by
      intro p hp
      rcases List.mem_cons.mp hp with h | h
      · rw [h]; exact f1
      · rcases List.mem_cons.mp h with h' | h'
        · rw [h']; exact f3
        · cases h'
    unfold postprocess_formatting
    rw [removeOrphans_of_no_heading _ hno]
    exact processLoop_of_no_heading _ hno
  rw [step2, step3] at hcontra
  have hsecond := congrArg (fun l => (l.getD 1 hPara).leftIndent) hcontra
  simp only [List.map_cons, List.map_nil, List.getD_cons_succ, List.getD_cons_zero] at hsecond
  have hbul : is_bullet (shiftTransform bPara) = true := by
    unfold is_bullet
    rw [shiftTransform_styleName]
    exact startsWith_list_bullet
  unfold secondPassReset at hsecond
  rw [if_pos hbul] at hsecond
  have hlvl0 : bullet_level_from_style_name ((shiftTransform bPara).styleName) = 0 := by
    rw [shiftTransform_styleName]
    decide
  have hlvl2 : bullet_level_from_style_name bPara.styleName = 1 := by decide
  have henf : ∀ q : Paragraph, (enforce_aptos_12 q).leftIndent = q.leftIndent :=
    fun q => rfl
  have hL : (resetTransform (shiftTransform bPara)).leftIndent = some 18 := by
    unfold resetTransform
    rw [hlvl0, henf]
    unfold apply_level_indent
    norm_num
  have hR : (shiftTransform bPara).leftIndent = some 54 := by
    unfold shiftTransform
    rw [hlvl2, henf]
    unfold apply_level_indent
    norm_num
  rw [hL, hR] at hsecond
  norm_num at hsecond

/-- Pass 1 restricted to a prefix of the stream, with `tail` the rest of
the stream the lookahead scan continues into. -/
def removeOrphansOn : List Paragraph → List Paragraph → List Paragraph
  | [], _ => []
  | p :: rest, tail =>
      if is_heading p && !keptAfter (rest ++ tail) then removeOrphansOn rest tail
      else p :: removeOrphansOn rest tail

lemma removeOrphans_cons (p : Paragraph) (rest : List Paragraph) :
    removeOrphans (p :: rest) =
      if is_heading p && !keptAfter rest then removeOrphans rest
      else p :: removeOrphans rest := rfl

lemma removeOrphansOn_cons (p : Paragraph) (rest tail : List Paragraph) :
    removeOrphansOn (p :: rest) tail =
      if is_heading p && !keptAfter (rest ++ tail) then removeOrphansOn rest tail
      else p :: removeOrphansOn rest tail := rfl

lemma removeOrphans_append (pre tail : List Paragraph) :
    removeOrphans (pre ++ tail) = removeOrphansOn pre tail ++ removeOrphans tail := by
  induction pre with
  | nil => rfl
  | cons p rest ih =>
      show removeOrphans (p :: (rest ++ tail)) = _
      rw [removeOrphans_cons, removeOrphansOn_cons, ih]
      by_cases h : is_heading p && !keptAfter (rest ++ tail)
      · rw [if_pos h, if_pos h]
      · rw [if_neg h, if_neg h]
        rfl

/-- The pass-1 lookahead succeeds exactly when a bullet paragraph occurs
before the next heading. -/
lemma keptAfter_iff (l : List Paragraph) :
    keptAfter l = (l.takeWhile (fun q => !is_heading q)).any is_bullet := by
  induction l with
  | nil => rfl
  | cons q rest ih =>
      unfold keptAfter
      by_cases hq : is_heading q
      · rw [if_pos hq]
        simp [List.takeWhile_cons, hq]
      · rw [if_neg hq]
        have hq' : is_heading q = false := by simpa using hq
        by_cases hb : is_bullet q
        · rw [if_pos hb]
          simp [List.takeWhile_cons, hq', hb]
        · rw [if_neg hb]
          have hb' : is_bullet q = false := by simpa using hb
          simp [List.takeWhile_cons, hq', hb', ih]

lemma processLoop_length (b : Bool) (qs : List Paragraph) :
    (processLoop b qs).length = qs.length := by
  induction qs generalizing b with
  | nil => rfl
  | cons q rest ih =>
      unfold processLoop
      by_cases h1 : is_heading q
      · rw [if_pos h1]
        simp [ih]
      · rw [if_neg h1]
        by_cases h2 : b && is_bullet q
        · rw [if_pos h2]
          simp [ih]
        · rw [if_neg h2]
          simp [ih]

/-- **C7.** Orphan-heading removal: in any stream `pre ++ p :: suf` with
`p` a heading paragraph, pass 1 of the postprocessor deletes `p` exactly
when no bullet paragraph occurs in `suf` before the next heading, and
retains `p` when one does; pass 2 deletes nothing (it preserves the
stream's length). -/
theorem orphan_heading_removal (pre suf : List Paragraph) (p : Paragraph)
    (hh : is_heading p = true) :
    removeOrphans (pre ++ p :: suf) =
      removeOrphansOn pre (p :: suf) ++
        (if (suf.takeWhile (fun q => !is_heading q)).any is_bullet
         then p :: removeOrphans suf else removeOrphans suf) ∧
    ∀ (b : Bool) (qs : List Paragraph), (processLoop b qs).length = qs.length := by
  refine ⟨?_, processLoop_length⟩
  rw [removeOrphans_append pre (p :: suf)]
  congr 1
  rw [removeOrphans_cons, hh, keptAfter_iff]
  by_cases hb : (suf.takeWhile (fun q => !is_heading q)).any is_bullet
  · rw [hb]
    simp
  · have hb' : (suf.takeWhile (fun q => !is_heading q)).any is_bullet = false := by
      simpa using hb
    rw [hb']
    simp

/-- Witness for C7: a lone heading paragraph (no bullet follows) is
deleted. -/
theorem orphan_heading_removal_witness :
    removeOrphans ([] ++ hPara :: []) =
      removeOrphansOn [] (hPara :: []) ++
        (if (([] : List Paragraph).takeWhile (fun q => !is_heading q)).any is_bullet
         then hPara :: removeOrphans [] else removeOrphans []) ∧
    (processLoop false [hPara]).length = [hPara].length :=
  ⟨(orphan_heading_removal [] [] hPara (by decide)).1,
   (orphan_heading_removal [] [] hPara (by decide)).2 false [hPara]⟩

/-!
## Normalizer and outline assembler (`is_footer_noise`,
`normalize_lines`, the per-page loop of `convert`)
-/

/-- `is_footer_noise`: blank, purely numeric, contains `@`, or starts
with `further reading` (case-insensitive). -/
def is_footer_noise (line : String) : Bool :=
  let l := pyStripChars line.data
  if l.isEmpty then true
  else if !l.isEmpty && l.all Char.isDigit then true
  else if l.contains ('@') then true
  else if pyStartsWith ("further reading") (String.mk (l.map Char.toLower)) then true
  else false

/-- Collapse every maximal whitespace run of an already-stripped
character list to a single space (`re.sub(r"\s+", " ", ...)`). -/
def collapseAfter : List Char → Bool → List Char
  | [], _ => []
  | c :: rest, prevSpace =>
      if pySpace c then
        (if prevSpace then [] else [' ']) ++ collapseAfter rest true
      else c :: collapseAfter rest false

/-- One line of `normalize_lines`: strip, then collapse inner whitespace
runs to single spaces. -/
def collapseWS (s : String) : String :=
  String.mk (collapseAfter (pyStripChars s.data) false)

/-- `normalize_lines` on the raw lines of a page: normalize each line and
drop empty and footer-noise lines. -/
def normalize_lines (raws : List String) : List String :=
  raws.filterMap (fun ln =>
    let n := collapseWS ln
    if n == "" || is_footer_noise n then none else some n)

/-- A unit of rendered output of `convert`'s per-page loop: a bold line
(`add_bold_line`, used for titles and headings), a bullet paragraph at a
clamped level (`add_bullet`), or the empty spacing paragraph emitted at
page end. -/
inductive Node where
  | boldLine (text : String)
  | bullet (text : String) (level : ℕ)
  | blank
  deriving DecidableEq

/-- The mutable loop state of `convert`'s per-page walk:
`current_bullet` (`none` = Python `None`), `current_level`, and the
cursor into the coordinate-derived level list. -/
structure AsmState where
  current : Option String
  level : ℕ
  idx : ℕ
  deriving DecidableEq

/-- `flush_bullet`: if the open bullet is truthy, emit it (stripped, at
the clamped level) and reset; otherwise do nothing. -/
def flushNodes (st : AsmState) : List Node × AsmState :=
  match st.current with
  | some c =>
      if c ≠ "" then
        ([Node.bullet (pyStrip c) (min st.level 2)],
         { current := none, level := 0, idx := st.idx })
      else ([], st)
  | none => ([], st)

/-- The per-line loop of `convert`: skip lines equal to the (truthy)
title, open bullets on bullet-marker lines (consuming the next
coordinate level if available), emit headings, turn every other line
into its own bullet in `force_all_lines_bullets` mode, else append it to
the open bullet; flush the last bullet at page end. -/
def asmRun (title? : Option String) (force : Bool) (levels : List ℕ) :
    AsmState → List String → List Node
  | st, [] => (flushNodes st).1
  | st, ln :: rest =>
      if (match title? with | some t => ln == t | none => false) then
        asmRun title? force levels st rest
      else
        match bullet_text ln with
        | some bt =>
            let fl := flushNodes st
            let lvl := if fl.2.idx < levels.length then levels.getD fl.2.idx 0 else 0
            let idx2 := if fl.2.idx < levels.length then fl.2.idx + 1 else fl.2.idx
            fl.1 ++ asmRun title? force levels
              { current := some bt, level := lvl, idx := idx2 } rest
        | none =>
            if looks_like_heading ln then
              let fl := flushNodes st
              fl.1 ++ (Node.boldLine ln :: asmRun title? force levels fl.2 rest)
            else if force then
              let fl := flushNodes st
              fl.1 ++ asmRun title? force levels
                { fl.2 with current := some ln, level := 0 } rest
            else
              match st.current with
              | some c =>
                  if c ≠ "" then
                    asmRun title? force levels
                      { st with current := some (c ++ " " ++ ln) } rest
                  else asmRun title? force levels st rest
              | none => asmRun title? force levels st rest

/-- Title selection of `convert`: first line that is not a bullet match
and is a heading or at most 60 characters. -/
def pageTitle (lines : List String) : Option String :=
  lines.find? (fun ln =>
    (bullet_text ln).isNone && (looks_like_heading ln || decide (ln.length ≤ 60)))

/-- Python truthiness of the selected title: the empty string behaves
like `None` in every `if title ...` guard. -/
def truthyTitle : Option String → Option String
  | some t => if t == "" then none else some t
  | none => none

/-- The skip test `title and title.strip().lower() in
{"outline", "summary"}`. -/
def titleSkip (t? : Option String) : Bool :=
  match t? with
  | some t =>
      (t != "") &&
        (pyLower (pyStrip t) == "outline" || pyLower (pyStrip t) == "summary")
  | none => false

/-- The nodes one page contributes in `convert`: nothing when the page
has no normalized lines, nothing when the resolved title is
Outline/Summary, otherwise the (truthy) title as a bold line, the
assembled body, and one trailing blank paragraph. -/
def pageNodes (lines : List String) (levels : List ℕ) (force : Bool) : List Node :=
  if lines.isEmpty then []
  else if titleSkip (pageTitle lines) then []
  else
    (match truthyTitle (pageTitle lines) with
     | some t => [Node.boldLine t]
     | none => []) ++
      asmRun (truthyTitle (pageTitle lines)) force levels
        { current := none, level := 0, idx := 0 } lines ++
      [Node.blank]

/-- One page of `convert` from the raw extracted text lines: normalize
first, then assemble. -/
def pageNodesRaw (raws : List String) (levels : List ℕ) (force : Bool) : List Node :=
  pageNodes (normalize_lines raws) levels force

/-- **C6.** A page whose resolved title, stripped and lower-cased,
equals `outline` or `summary` contributes no nodes at all: no title, no
headings, no bullets, no blank separator. -/
theorem outline_summary_skip (lines : List String) (levels : List ℕ) (force : Bool)
    (t : String) (ht : pageTitle lines = some t)
    (hs : (pyLower (pyStrip t) == "outline" || pyLower (pyStrip t) == "summary") = true) :
    pageNodes lines levels force = [] := by
  have htne : t ≠ "" := by
    intro h
    subst h
    exact absurd hs (by decide)
  unfold pageNodes
  by_cases he : lines.isEmpty
  · rw [if_pos he]
  · rw [if_neg he]
    have hskip : titleSkip (pageTitle lines) = true := by
      rw [ht]
      show (t != "" &&
        (pyLower (pyStrip t) == "outline" || pyLower (pyStrip t) == "summary")) = true
      rw [hs]
      simp [htne]
    rw [hskip]
    simp

/-- Witness for C6: the page `["Outline", "- a b"]` emits nothing. -/
theorem outline_summary_skip_witness :
    pageNodes [("Outline"), ("- a b")] [] false = [] :=
  outline_summary_skip [("Outline"), ("- a b")] [] false ("Outline") (by decide) (by decide)

lemma flushNodes_count_blank (st : AsmState) :
    ((flushNodes st).1).count Node.blank = 0 := by
  unfold flushNodes
  cases hc : st.current with
  | none => rfl
  | some c =>
      simp only []
      by_cases hce : c ≠ ""
      · rw [if_pos hce]
        simp
      · rw [if_neg hce]
        rfl

/-- The assembled body of a page contains no blank node. -/
lemma asmRun_count_blank (t? : Option String) (force : Bool) (levels : List ℕ) :
    ∀ (ls : List String) (st : AsmState),
      (asmRun t? force levels st ls).count Node.blank = 0 := by
  intro ls
  induction ls with
  | nil => intro st; exact flushNodes_count_blank st
  | cons ln rest ih =>
      intro st
      simp only [asmRun]
      by_cases htm : (match t? with | some t => ln == t | none => false)
      · rw [if_pos htm]
        exact ih st
      · rw [if_neg htm]
        cases hbt : bullet_text ln with
        | some bt =>
            simp only [List.count_append]
            rw [flushNodes_count_blank, ih]
        | none =>
            simp only []
            by_cases hh : looks_like_heading ln
            · rw [if_pos hh]
              simp only [List.count_append, List.count_cons]
              rw [flushNodes_count_blank, ih]
              simp
            · rw [if_neg hh]
              by_cases hf : force
              · rw [if_pos hf]
                simp only [List.count_append]
                rw [flushNodes_count_blank, ih]
              · rw [if_neg hf]
                cases hc : st.current with
                | some c =>
                    simp only []
                    by_cases hce : c ≠ ""
                    · rw [if_pos hce]
                      exact ih _
                    · rw [if_neg hce]
                      exact ih st
                | none => exact ih st

lemma getLast_concat {α : Type} (l : List α) (a : α) :
    (l ++ [a]).getLast? = some a := by
  induction l with
  | nil => rfl
  | cons x rest ih =>
      rw [List.cons_append, List.getLast?_cons, ih]
      rfl

/-- **C9 (amended).** Every page with at least one normalized line that
is not skipped by the Outline/Summary rule emits exactly one blank
separator node, as its final node, after the body (which contains no
blank) — even when the body contributes nothing.  (A page with no
normalized lines emits nothing at all, including no blank separator.) -/
theorem page_blank_separator (lines : List String) (levels : List ℕ) (force : Bool)
    (h1 : lines ≠ []) (h2 : titleSkip (pageTitle lines) = false) :
    (pageNodes lines levels force).count Node.blank = 1 ∧
    (pageNodes lines levels force).getLast? = some Node.blank := by
  have he : lines.isEmpty = false := by
    cases lines with
    | nil => exact absurd rfl h1
    | cons a t => rfl
  unfold pageNodes
  rw [if_neg (by rw [he]; exact Bool.false_ne_true),
      if_neg (by rw [h2]; exact Bool.false_ne_true)]
  constructor
  · simp only [List.count_append]
    rw [asmRun_count_blank]
    cases htt : truthyTitle (pageTitle lines) with
    | some t => simp
    | none => simp
  · exact getLast_concat _ _

/-- Witness for C9 on a one-line page. -/
theorem page_blank_separator_witness :
    (pageNodes [("Hello")] [] false).count Node.blank = 1 ∧
    (pageNodes [("Hello")] [] false).getLast? = some Node.blank :=
  page_blank_separator [("Hello")] [] false (by decide) (by decide)

/-- **C9 counterexample.** A page whose only raw line is the page-number
artefact `42` has no normalized lines; it is not skipped by the
Outline/Summary rule and yet emits no nodes — in particular no blank
separator. -/
theorem blank_separator_counterexample :
    normalize_lines [("42")] = [] ∧
    titleSkip (pageTitle (normalize_lines [("42")])) = false ∧
    pageNodesRaw [("42")] [] false = [] := by
  decide

/-- Skipping every occurrence of the title line is the same as deleting
every line equal to the title up front. -/
lemma asmRun_skip_title (t : String) (force : Bool) (levels : List ℕ) :
    ∀ (ls : List String) (st : AsmState),
      asmRun (some t) force levels st ls =
        asmRun none force levels st (ls.filter (fun ln => ln != t)) := by
  intro ls
  induction ls with
  | nil => intro st; rfl
  | cons ln rest ih =>
      intro st
      by_cases hlt : ln == t
      · have hfilter : (ln :: rest).filter (fun ln => ln != t) =
            rest.filter (fun ln => ln != t) := by
          rw [List.filter_cons]
          simp [bne, hlt]
        rw [hfilter]
        simp only [asmRun]
        rw [if_pos hlt]
        exact ih st
      · have hlt' : (ln == t) = false := by simpa using hlt
        have hfilter : (ln :: rest).filter (fun ln => ln != t) =
            ln :: rest.filter (fun ln => ln != t) := by
          rw [List.filter_cons]
          simp [bne, hlt']
        rw [hfilter]
        simp only [asmRun]
        rw [if_neg (show ¬((ln == t) = true) by rw [hlt']; exact Bool.false_ne_true),
            if_neg (show ¬(false = true) from Bool.false_ne_true)]
        cases hbt : bullet_text ln with
        | some bt =>
            simp only []
            rw [ih]
        | none =>
            simp only []
            by_cases hh : looks_like_heading ln
            · rw [if_pos hh, if_pos hh, ih]
            · rw [if_neg hh, if_neg hh]
              by_cases hf : force
              · rw [if_pos hf, if_pos hf, ih]
              · rw [if_neg hf, if_neg hf]
                cases hc : st.current with
                | some c =>
                    simp only []
                    by_cases hce : c ≠ ""
                    · rw [if_pos hce, if_pos hce, ih]
                    · rw [if_neg hce, if_neg hce, ih]
                | none => rw [ih]

/-- **C10.** On a page with a (truthy) chosen title that is not skipped,
every line string-equal to the title — not only the selected first
occurrence — is excluded from bullet/heading/continuation processing:
the page renders as the bold title, then the body assembled from the
lines with all copies of the title removed, then the blank separator. -/
theorem duplicate_title_skipped (lines : List String) (levels : List ℕ) (force : Bool)
    (t : String) (ht : pageTitle lines = some t) (htne : t ≠ "")
    (hskip : titleSkip (pageTitle lines) = false) :
    pageNodes lines levels force =
      Node.boldLine t ::
        (asmRun none force levels { current := none, level := 0, idx := 0 }
            (lines.filter (fun ln => ln != t)) ++ [Node.blank]) := by
  have hmem : t ∈ lines := by
    have := List.mem_of_find?_eq_some ht
    exact this
  have h1 : lines ≠ [] := List.ne_nil_of_mem hmem
  have he : lines.isEmpty = false := by
    cases lines with
    | nil => exact absurd rfl h1
    | cons a tl => rfl
  have htruthy : truthyTitle (pageTitle lines) = some t := by
    rw [ht]
    show (if (t == "") = true then none else some t) = some t
    rw [if_neg (fun hh => htne (eq_of_beq hh))]
  unfold pageNodes
  rw [if_neg (by rw [he]; exact Bool.false_ne_true),
      if_neg (by rw [hskip]; exact Bool.false_ne_true), htruthy,
      asmRun_skip_title]
  rfl

/-- Witness for C10: the duplicated title line `Intro` produces no
node. -/
theorem duplicate_title_skipped_witness :
    pageNodes [("Intro"), ("• a"), ("Intro")] [] false =
      Node.boldLine ("Intro") ::
        (asmRun none false [] { current := none, level := 0, idx := 0 }
            (([("Intro"), ("• a"), ("Intro")] : List String).filter
              (fun ln => ln != ("Intro"))) ++ [Node.blank]) :=
  duplicate_title_skipped [("Intro"), ("• a"), ("Intro")] [] false ("Intro")
    (by decide) (by decide) (by decide)

/-!
## Template remapper (`word_reindent.apply_template_bullets`)
-/

/-- An output paragraph of the remapper: optional style, optional
`numPr` numbering reference `(numId, ilvl)`, runs, and the direct
paragraph formatting `clear_direct_paragraph_formatting` nulls out. -/
structure OutPara where
  styleName : Option String
  numPr : Option (ℤ × ℤ)
  runs : List Run
  leftIndent : Option ℚ
  firstLineIndent : Option ℚ
  rightIndent : Option ℚ
  spaceBefore : Option ℚ
  spaceAfter : Option ℚ
  lineSpacing : Option ℚ
  deriving DecidableEq

/-- A freshly added empty output paragraph (`out.add_paragraph("")`). -/
def emptyOut : OutPara :=
  { styleName := none, numPr := none, runs := [], leftIndent := none,
    firstLineIndent := none, rightIndent := none, spaceBefore := none,
    spaceAfter := none, lineSpacing := none }

/-- `set_paragraph_numbering`: clamp the level into [0, 8] and attach
the `(numId, ilvl)` numbering reference (replacing any existing one). -/
def set_paragraph_numbering (p : OutPara) (numId : ℤ) (ilvl : ℤ) : OutPara :=
  { p with numPr := some (numId, max 0 (min ilvl 8)) }

/-- `clear_direct_paragraph_formatting`: null out all direct indents and
spacing. -/
def clear_direct_paragraph_formatting (p : OutPara) : OutPara :=
  { p with leftIndent := none, firstLineIndent := none, rightIndent := none,
           spaceBefore := none, spaceAfter := none, lineSpacing := none }

/-- `copy_runs_force_not_bold` followed by the final font/bold loop of
`apply_template_bullets`: copy each non-empty run's text, preserve
italic/underline, force bold off, force the canonical font. -/
def copy_runs_force_not_bold (sp : Paragraph) : List Run :=
  sp.runs.filterMap (fun r =>
    if r.text == "" then none
    else some { text := r.text, bold := some false, italic := r.italic,
                underline := r.underline, fontName := some APTOS,
                fontSize := some (12 : ℚ) })

/-- `is_list_like`: the style name starts with `List`, or the paragraph
has both a negative first-line indent and a positive left indent. -/
def is_list_like (sp : Paragraph) : Bool :=
  pyStartsWith ("List") sp.styleName ||
    ((match sp.firstLineIndent with
      | some f => decide (f < 0)
      | none => false) &&
     (match sp.leftIndent with
      | some l => decide (0 < l)
      | none => false))

/-- The fixed numbering id the remapper binds all list paragraphs to. -/
def TEMPLATE_NUM_ID : ℤ := 1

/-- The template list style name the remapper looks up. -/
def TEMPLATE_LIST_STYLE : String := "List Paragraph"

/-- The body of `apply_template_bullets`' loop for one source paragraph:
drop blank paragraphs; for list-like paragraphs, style with the
template's list style when present, bind the fixed numbering id at the
inferred level, clear direct formatting and copy the de-bolded runs; for
plain paragraphs, just clear formatting and copy runs. -/
def processSrcPara (styleNames : List String) (sp : Paragraph) : Option OutPara :=
  if pyStrip sp.text == "" then none
  else if is_list_like sp then
    some { clear_direct_paragraph_formatting
             (set_paragraph_numbering
               (if styleNames.contains TEMPLATE_LIST_STYLE then
                  { emptyOut with styleName := some TEMPLATE_LIST_STYLE }
                else emptyOut)
               TEMPLATE_NUM_ID (infer_level_from_indent sp)) with
           runs := copy_runs_force_not_bold sp }
  else
    some { clear_direct_paragraph_formatting emptyOut with
           runs := copy_runs_force_not_bold sp }

/-- `apply_template_bullets` over the source paragraph stream, given the
style names available in the template. -/
def apply_template_bullets (styleNames : List String) (src : List Paragraph) :
    List OutPara :=
  src.filterMap (processSrcPara styleNames)

lemma infer_level_bounds (sp : Paragraph) :
    0 ≤ infer_level_from_indent sp ∧ infer_level_from_indent sp ≤ 2 := by
  unfold infer_level_from_indent
  cases sp.leftIndent with
  | none =>
      simp only []
      omega
  | some left =>
      simp only []
      constructor <;> omega

/-- **C8.** For every non-blank list-like source paragraph the remapper
emits an output paragraph bound to the fixed numbering definition id at
the inferred level, whatever style names the template offers — in
particular also when it lacks the `List Paragraph` style, in which case
the paragraph merely stays unstyled. -/
theorem numbering_never_skipped (styleNames : List String) (sp : Paragraph)
    (hl : is_list_like sp = true) (ht : pyStrip sp.text ≠ "") :
    (processSrcPara styleNames sp).map (fun dp => dp.numPr) =
      some (some (TEMPLATE_NUM_ID, infer_level_from_indent sp)) ∧
    (processSrcPara styleNames sp).map (fun dp => dp.styleName) =
      some (if styleNames.contains TEMPLATE_LIST_STYLE then
              some TEMPLATE_LIST_STYLE else none) := by
  have hts : (pyStrip sp.text == "") = false := by
    simpa using ht
  have hclamp : max 0 (min (infer_level_from_indent sp) 8) =
      infer_level_from_indent sp := by
    have := infer_level_bounds sp
    omega
  unfold processSrcPara
  rw [if_neg (by rw [hts]; exact Bool.false_ne_true), if_pos hl]
  unfold set_paragraph_numbering clear_direct_paragraph_formatting
  rw [hclamp]
  by_cases hsty : styleNames.contains TEMPLATE_LIST_STYLE
  · rw [if_pos hsty, if_pos hsty]
    exact ⟨rfl, rfl⟩
  · rw [if_neg hsty, if_neg hsty]
    exact ⟨rfl, rfl⟩

/-- A list-like paragraph at left indent 36 / hanging indent −18. -/
def listPara : Paragraph :=
  { runs := [{ text := "x", bold := some true, italic := none, underline := none,
               fontName := none, fontSize := none }],
    styleName := "List Bullet", leftIndent := some 36, firstLineIndent := some (-18) }

/-- Witness for C8 with a template that lacks the `List Paragraph`
style. -/
theorem numbering_never_skipped_witness :
    (processSrcPara [] listPara).map (fun dp => dp.numPr) =
      some (some (TEMPLATE_NUM_ID, infer_level_from_indent listPara)) ∧
    (processSrcPara [] listPara).map (fun dp => dp.styleName) =
      some (if ([] : List String).contains TEMPLATE_LIST_STYLE then
              some TEMPLATE_LIST_STYLE else none) :=
  numbering_never_skipped [] listPara (by decide) (by decide)

end PdfNotes
